import Mathlib

/-!
Verification of the quiz-application session logic.

The development shallowly embeds the two React components of the repository:

* `QuizApp` — the extended variant (`src/unnamed/part_000`): settings
  (question shuffle, answer shuffle, challenge mode), free navigation,
  upserting answer selection, submit-time scoring, and the synthetic
  "Master Challenge" quiz.
* `BasicQuiz` — the basic variant (`src/my-quiz-app/src/QuizApp.tsx`):
  linear auto-advancing flow with immediate per-question scoring.

Modelling conventions:

* JavaScript numbers are modelled as exact naturals / integers;
  `Math.round` on a non-negative quotient `num/den` is `jsRound num den`
  (round half away from zero, i.e. `⌊num/den + 1/2⌋`).
* `Math.random()`-driven choices are injected: a `RandSrc` supplies, for
  every Fisher–Yates iteration `i`, an arbitrary natural that is reduced
  `% (i+1)` exactly as `Math.floor(Math.random() * (i + 1))` produces a
  value in `[0, i]`.  Universally quantifying over `RandSrc` quantifies
  over every outcome of the random source.
* React `useState` cells are collected into explicit state records, and
  every event handler becomes a pure function from state to state.
  Handlers that would throw a `TypeError` on an out-of-bounds array
  access (`undefined.field`) return `Option` states, `none` marking the
  crash.  Object and array spreads in the source copy before writing, so
  the original catalog data is never mutated; the pure embedding
  reflects this.
* Dates are milliseconds since the epoch (`Nat`), injected into each
  transition that reads the clock (`new Date()`).
-/

namespace QuizApp

/-- `interface Question` of the extended variant. -/
structure Question where
  questionNumber : Nat
  questionText : String
  options : List String
  correctAnswer : String
  image : Option String
deriving DecidableEq

/-- `interface Quiz`. -/
structure Quiz where
  quiz : String
  topic : String
  questions : List Question
deriving DecidableEq

/-- `interface QuizData`. -/
structure QuizData where
  course : String
  description : String
  quizzes : List Quiz
deriving DecidableEq

/-- `interface UserAnswer`; `isCorrect` is the optional (`undefined` before
submit) correctness flag. -/
structure UserAnswer where
  questionIndex : Nat
  selectedAnswer : String
  isCorrect : Option Bool
deriving DecidableEq

/-- `interface QuizSettings`. -/
structure QuizSettings where
  shuffleQuestions : Bool
  shuffleAnswers : Bool
  restartOnIncorrect : Bool
deriving DecidableEq

/-- `Math.round (num / den)` for non-negative exact rationals:
`⌊num/den + 1/2⌋ = (2*num + den) / (2*den)` in natural division. -/
def jsRound (num den : Nat) : Nat := (2 * num + den) / (2 * den)

/-- The swap `[a[i], a[j]] = [a[j], a[i]]` inside `shuffleArray`; indices
outside the array leave it unchanged (the shuffle loop only produces
in-bounds indices). -/
def listSwap {α : Type} (l : List α) (i j : Nat) : List α :=
  match l[i]?, l[j]? with
  | some a, some b => (l.set i b).set j a
  | _, _ => l

/-- The `for (let i = length - 1; i > 0; i--)` loop of `shuffleArray`:
at index `i` swap with `j = Math.floor(Math.random() * (i + 1))`,
modelled as `rand i % (i + 1)` — an arbitrary value in `[0, i]`. -/
def fisherYatesAux {α : Type} (rand : Nat → Nat) : Nat → List α → List α
  | 0, l => l
  | i + 1, l => fisherYatesAux rand i (listSwap l (i + 1) (rand (i + 1) % (i + 2)))

/-- `shuffleArray` (extended variant, lines 81–88): Fisher–Yates over a
copy of the input. -/
def shuffleArray {α : Type} (rand : Nat → Nat) (array : List α) : List α :=
  fisherYatesAux rand (array.length - 1) array

/-- The renumbering `map((q, idx) => ({ ...q, questionNumber: idx + 1 }))`
written with an explicit next-number counter. -/
def renumberFrom (n : Nat) : List Question → List Question
  | [] => []
  | q :: qs => { q with questionNumber := n } :: renumberFrom (n + 1) qs

/-- A random source for one quiz processing: `qRand` drives the question
shuffle, `aRand k` drives the option shuffle of the question at
position `k` (each `shuffleArray` call in the source consumes fresh
`Math.random()` outputs). -/
structure RandSrc where
  qRand : Nat → Nat
  aRand : Nat → Nat → Nat

/-- The `map(question => ({ ...question, options: shuffleArray(question.options) }))`
stage of `processQuizWithSettings`, with the per-question random stream
made explicit by the position counter `k`. -/
def shuffleAnswerOptions (aRand : Nat → Nat → Nat) (k : Nat) :
    List Question → List Question
  | [] => []
  | q :: qs =>
    { q with options := shuffleArray (aRand k) q.options } ::
      shuffleAnswerOptions aRand (k + 1) qs

/-- `processQuizWithSettings` (lines 192–220): optionally shuffle and
renumber the questions, then optionally shuffle each question's options. -/
def processQuizWithSettings (r : RandSrc) (quiz : Quiz)
    (settings : QuizSettings) : Quiz :=
  let qs1 :=
    if settings.shuffleQuestions then
      renumberFrom 1 (shuffleArray r.qRand quiz.questions)
    else quiz.questions
  let qs2 :=
    if settings.shuffleAnswers then shuffleAnswerOptions r.aRand 0 qs1
    else qs1
  { quiz with questions := qs2 }

/-- The nested `forEach` push loop of `createAllQuestionsQuiz` with its
`questionCounter`: every question of every quiz, in catalog order, with
`questionNumber` set from the running counter. -/
def appendAllQuestions : List Quiz → Nat → List Question
  | [], _ => []
  | quiz :: rest, questionCounter =>
    renumberFrom questionCounter quiz.questions ++
      appendAllQuestions rest (questionCounter + quiz.questions.length)

/-- `createAllQuestionsQuiz` (lines 61–79): the synthetic "Master
Challenge" quiz. -/
def createAllQuestionsQuiz (quizData : QuizData) : Quiz :=
  { quiz := "Master Challenge"
    topic := "All Topics Combined"
    questions := appendAllQuestions quizData.quizzes 1 }

/-- JavaScript `Array.prototype.findIndex`: `-1` when no element matches,
with `k` the index of the head of the remaining list. -/
def findIndexAux {α : Type} (p : α → Bool) : List α → Nat → Int
  | [], _ => -1
  | a :: as, k => if p a then (k : Int) else findIndexAux p as (k + 1)

/-- `handleAnswerSelect` (lines 235–258), at the answer-list level: replace
the first entry recorded for the current question index, else append a new
entry.  The written record carries no `isCorrect` field. -/
def handleAnswerSelect (userAnswers : List UserAnswer)
    (currentQuestionIndex : Nat) (answer : String) : List UserAnswer :=
  let existingAnswerIndex :=
    findIndexAux (fun ans => ans.questionIndex == currentQuestionIndex)
      userAnswers 0
  if existingAnswerIndex ≠ -1 then
    userAnswers.set existingAnswerIndex.toNat
      ⟨currentQuestionIndex, answer, none⟩
  else
    userAnswers ++ [⟨currentQuestionIndex, answer, none⟩]

/-- The `currentView` values of the extended variant. -/
inductive View where
  | home
  | settingsView
  | quiz
  | results
deriving DecidableEq

/-- The `useState` cells of the extended `QuizApp` component that the
session logic reads and writes (the loading flag and the write-only
`quizSubmitted` flag are omitted: no transition reads them). -/
structure SessionState where
  currentView : View
  selectedQuiz : Option Quiz
  processedQuiz : Option Quiz
  currentQuestionIndex : Nat
  userAnswers : List UserAnswer
  startTime : Option Nat
  endTime : Option Nat
  quizSettings : QuizSettings
deriving DecidableEq

/-- `startQuiz` (lines 222–233): process the selected quiz under the
current settings and enter the quiz view with a fresh session. -/
def startQuiz (r : RandSrc) (now : Nat) (s : SessionState) : SessionState :=
  match s.selectedQuiz with
  | none => s
  | some sq =>
    { s with
      processedQuiz := some (processQuizWithSettings r sq s.quizSettings)
      currentQuestionIndex := 0
      userAnswers := []
      startTime := some now
      endTime := none
      currentView := View.quiz }

/-- `restartQuiz` (lines 295–306): identical session reset, reprocessing
(and hence reshuffling) the selected quiz. -/
def restartQuiz (r : RandSrc) (now : Nat) (s : SessionState) : SessionState :=
  match s.selectedQuiz with
  | none => s
  | some sq =>
    { s with
      processedQuiz := some (processQuizWithSettings r sq s.quizSettings)
      currentQuestionIndex := 0
      userAnswers := []
      startTime := some now
      endTime := none
      currentView := View.quiz }

/-- `QuizView.handleAnswerSelect` (lines 697–708) composed with the
controller-level upsert: in challenge mode a selection different from the
current question's correct answer restarts the quiz, otherwise the
selection is upserted.  `none` models the `TypeError` the component
throws when `currentQuestion` is out of bounds (such a view never
renders, so no selection event can occur there). -/
def selectAnswer (answer : String) (r : RandSrc) (now : Nat)
    (s : SessionState) : Option SessionState :=
  match s.processedQuiz with
  | none => none
  | some pq =>
    match pq.questions[s.currentQuestionIndex]? with
    | none => none
    | some currentQuestion =>
      if s.quizSettings.restartOnIncorrect ∧
          answer ≠ currentQuestion.correctAnswer then
        some (restartQuiz r now s)
      else
        some { s with
          userAnswers :=
            handleAnswerSelect s.userAnswers s.currentQuestionIndex answer }

/-- `navigateToQuestion` (lines 260–266): bounds-checked jump; the index
argument is an integer because the previous/next buttons pass
`currentQuestionIndex ± 1`. -/
def navigateToQuestion (index : Int) (s : SessionState) : SessionState :=
  match s.processedQuiz with
  | none => s
  | some pq =>
    if 0 ≤ index ∧ index < (pq.questions.length : Int) then
      { s with currentQuestionIndex := index.toNat }
    else s

/-- The `userAnswers.map` body of `submitQuiz`: spread the answer and set
`isCorrect` by comparing with the processed quiz's question at the
answer's index; `none` models the `TypeError` on an out-of-bounds index. -/
def markAnswers (pq : Quiz) : List UserAnswer → Option (List UserAnswer)
  | [] => some []
  | a :: rest =>
    match pq.questions[a.questionIndex]? with
    | none => none
    | some q =>
      (markAnswers pq rest).map fun marked =>
        { a with isCorrect := some (a.selectedAnswer = q.correctAnswer) } ::
          marked

/-- `submitQuiz` (lines 268–282): score every recorded answer, stamp the
end time, move to the results view. -/
def submitQuiz (now : Nat) (s : SessionState) : Option SessionState :=
  match s.processedQuiz with
  | none => some s
  | some pq =>
    (markAnswers pq s.userAnswers).map fun answersWithResults =>
      { s with
        userAnswers := answersWithResults
        endTime := some now
        currentView := View.results }

/-- The record returned by `calculateResults`. -/
structure QuizResults where
  correctAnswers : Nat
  totalQuestions : Nat
  answeredQuestions : Nat
  percentage : Nat
  duration : Nat
deriving DecidableEq

/-- `calculateResults` (lines 308–340).  `answer.isCorrect` is truthy
exactly when it is `true`; the percentage division is guarded by
`totalQuestions > 0`; duration is `Math.round((end - start) / 1000)`. -/
def calculateResults (s : SessionState) : QuizResults :=
  match s.processedQuiz with
  | none =>
    { correctAnswers := 0, totalQuestions := 0, answeredQuestions := 0
      percentage := 0, duration := 0 }
  | some pq =>
    let correctAnswers :=
      (s.userAnswers.filter fun a => a.isCorrect == some true).length
    let totalQuestions := pq.questions.length
    let answeredQuestions := s.userAnswers.length
    let percentage :=
      if totalQuestions > 0 then jsRound (correctAnswers * 100) totalQuestions
      else 0
    let duration :=
      match s.startTime, s.endTime with
      | some st, some en => jsRound (en - st) 1000
      | _, _ => 0
    { correctAnswers := correctAnswers, totalQuestions := totalQuestions
      answeredQuestions := answeredQuestions, percentage := percentage
      duration := duration }

/-- One user action inside a running extended session.  Selection,
navigation and submission are only possible while the quiz view is
rendered; "Retake Quiz" is only possible from the results view. -/
inductive EStep : SessionState → SessionState → Prop where
  | select (answer : String) (r : RandSrc) (now : Nat)
      (s s' : SessionState) : s.currentView = View.quiz →
      selectAnswer answer r now s = some s' → EStep s s'
  | navigate (index : Int) (s : SessionState) :
      s.currentView = View.quiz → EStep s (navigateToQuestion index s)
  | submit (now : Nat) (s s' : SessionState) :
      s.currentView = View.quiz → submitQuiz now s = some s' → EStep s s'
  | retake (r : RandSrc) (now : Nat) (s : SessionState) :
      s.currentView = View.results → EStep s (restartQuiz r now s)

/-- The session produced by `startQuiz` from the settings view for quiz
`sq` under `settings` — the state in which every extended session
starts. -/
def startSession (sq : Quiz) (settings : QuizSettings) (r : RandSrc)
    (now : Nat) : SessionState :=
  startQuiz r now
    { currentView := View.settingsView
      selectedQuiz := some sq
      processedQuiz := none
      currentQuestionIndex := 0
      userAnswers := []
      startTime := none
      endTime := none
      quizSettings := settings }

/-- A question with its `questionNumber` blanked out: the identity of a
question apart from its ordinal. -/
def eraseNumber (q : Question) : Question := { q with questionNumber := 0 }
/-- Proof-side restatement of `handleAnswerSelect`: replace the first
entry whose `questionIndex` matches, else append.  `handleAnswerSelect`
(`findIndex` + assignment) is proved equal to it below. -/
def upsertFirst (idx : Nat) (answer : String) :
    List UserAnswer → List UserAnswer
  | [] => [⟨idx, answer, none⟩]
  | a :: as =>
    if a.questionIndex == idx then ⟨idx, answer, none⟩ :: as
    else a :: upsertFirst idx answer as
/-- "At most one recorded answer per question index". -/
def AtMostOnePerIndex (answers : List UserAnswer) : Prop :=
  ∀ i : Nat, (answers.countP fun a => a.questionIndex == i) ≤ 1
/-! ### Session invariant of the extended variant -/

/-- The session invariant maintained by every user action of a running
extended session over quiz `sq` with settings `settings`: the selected
quiz and settings never change; the processed quiz exists and has as
many questions as `sq`; the current index is in bounds; the answer list
has at most one entry per question index, all indices in bounds; and in
challenge mode every recorded answer is the correct answer of the
processed question at its index. -/
def SessionInv (sq : Quiz) (settings : QuizSettings)
    (s : SessionState) : Prop :=
  s.selectedQuiz = some sq ∧
  s.quizSettings = settings ∧
  s.currentQuestionIndex < sq.questions.length ∧
  AtMostOnePerIndex s.userAnswers ∧
  (∀ a ∈ s.userAnswers, a.questionIndex < sq.questions.length) ∧
  ∃ pq, s.processedQuiz = some pq ∧
    pq.questions.length = sq.questions.length ∧
    (settings.restartOnIncorrect = true →
      ∀ a ∈ s.userAnswers, ∃ q, pq.questions[a.questionIndex]? = some q ∧
        a.selectedAnswer = q.correctAnswer)
/-- The hard-coded fallback demo quiz of the source, used as concrete
input for witnesses. -/
def fallbackQuiz : Quiz :=
  { quiz := "Demo Quiz"
    topic := "Sample Questions"
    questions :=
      [ { questionNumber := 1
          questionText :=
            "What is the primary purpose of object-oriented programming?"
          options := ["Code reusability", "Faster execution",
            "Smaller file size", "Better graphics"]
          correctAnswer := "Code reusability"
          image := none }
      , { questionNumber := 2
          questionText :=
            "Which programming language is primarily used for web development?"
          options := ["Python", "JavaScript", "C++", "Assembly"]
          correctAnswer := "JavaScript"
          image := none }
      , { questionNumber := 3
          questionText := "What does HTML stand for?"
          options := ["Hypertext Markup Language",
            "High-level Text Management Language",
            "Home Tool Markup Language",
            "Hyperlink and Text Markup Language"]
          correctAnswer := "Hypertext Markup Language"
          image := some
            "https://www.w3.org/html/logo/downloads/HTML5_Logo_512.png" } ] }
/-- A concrete random source (always picks index 0) for witnesses. -/
def zeroRand : RandSrc := ⟨fun _ => 0, fun _ _ => 0⟩

/-- The states a session over quiz `sq` with settings `settings` can
reach through user actions. -/
def Reachable (sq : Quiz) (settings : QuizSettings)
    (s : SessionState) : Prop :=
  ∃ r now, Relation.ReflTransGen EStep (startSession sq settings r now) s

end QuizApp

namespace BasicQuiz

open QuizApp (Quiz Question jsRound)

/-- `interface UserAnswer` of the basic variant: `isCorrect` is computed
immediately on submit, never absent. -/
structure UserAnswer where
  questionIndex : Nat
  selectedAnswer : String
  isCorrect : Bool
deriving DecidableEq

/-- The `currentView` values of the basic variant. -/
inductive View where
  | home
  | quiz
  | results
deriving DecidableEq

/-- The `useState` cells of the basic `QuizApp` component (loading flag
omitted: no session transition reads it). -/
structure SessionState where
  currentView : View
  selectedQuiz : Option Quiz
  currentQuestionIndex : Nat
  userAnswers : List UserAnswer
  selectedAnswer : String
  showResult : Bool
  startTime : Option Nat
  endTime : Option Nat
deriving DecidableEq

/-- `startQuiz` (basic variant, lines 108–117). -/
def startQuiz (quiz : Quiz) (now : Nat) : SessionState :=
  { currentView := View.quiz
    selectedQuiz := some quiz
    currentQuestionIndex := 0
    userAnswers := []
    selectedAnswer := ""
    showResult := false
    startTime := some now
    endTime := none }

/-- `handleAnswerSelect` (basic variant, lines 119–121). -/
def handleAnswerSelect (answer : String) (s : SessionState) : SessionState :=
  { s with selectedAnswer := answer }

/-- `submitAnswer` (basic variant, lines 123–149) together with the state
its 1.5 s timeout callback leaves behind: record the scored answer, then
either advance to the next question or, on the last question, stamp the
end time and show the results.  `none` models the `TypeError` on an
out-of-bounds `currentQuestionIndex`. -/
def submitAnswer (now : Nat) (s : SessionState) : Option SessionState :=
  match s.selectedQuiz with
  | none => some s
  | some quiz =>
    if s.selectedAnswer = "" then some s
    else
      match quiz.questions[s.currentQuestionIndex]? with
      | none => none
      | some currentQuestion =>
        let newAnswer : UserAnswer :=
          { questionIndex := s.currentQuestionIndex
            selectedAnswer := s.selectedAnswer
            isCorrect := s.selectedAnswer = currentQuestion.correctAnswer }
        let updatedAnswers := s.userAnswers ++ [newAnswer]
        if s.currentQuestionIndex < quiz.questions.length - 1 then
          some { s with
            userAnswers := updatedAnswers
            currentQuestionIndex := s.currentQuestionIndex + 1
            selectedAnswer := ""
            showResult := false }
        else
          some { s with
            userAnswers := updatedAnswers
            endTime := some now
            currentView := View.results }

/-- The record returned by the basic `calculateResults`. -/
structure QuizResults where
  correctAnswers : Nat
  totalQuestions : Nat
  percentage : Option Nat
  duration : Nat
deriving DecidableEq

/-- `calculateResults` (basic variant, lines 162–174): `totalQuestions`
is the number of *recorded answers*, and the percentage division is
unguarded — `none` models the `NaN` produced when no answer was
recorded. -/
def calculateResults (s : SessionState) : QuizResults :=
  let correctAnswers := (s.userAnswers.filter fun a => a.isCorrect).length
  let totalQuestions := s.userAnswers.length
  let percentage :=
    if totalQuestions = 0 then none
    else some (jsRound (correctAnswers * 100) totalQuestions)
  let duration :=
    match s.startTime, s.endTime with
    | some st, some en => jsRound (en - st) 1000
    | _, _ => 0
  { correctAnswers := correctAnswers, totalQuestions := totalQuestions
    percentage := percentage, duration := duration }

/-- One user action inside a running basic session: pick an option (only
while feedback is not showing), submit it, or retake the quiz from the
results view (`onRestart={() => startQuiz(selectedQuiz!)}`). -/
inductive BStep : SessionState → SessionState → Prop where
  | selectAns (answer : String) (s : SessionState) :
      s.currentView = View.quiz → s.showResult = false →
      BStep s (handleAnswerSelect answer s)
  | submitAns (now : Nat) (s s' : SessionState) :
      s.currentView = View.quiz → submitAnswer now s = some s' →
      BStep s s'
  | restart (quiz : Quiz) (now : Nat) (s : SessionState) :
      s.currentView = View.results → s.selectedQuiz = some quiz →
      BStep s (startQuiz quiz now)

/-! ### Session invariant of the basic variant -/

/-- The invariant of a running basic session: the selected quiz never
changes; while the quiz view is shown, exactly the questions before the
current one have been answered (one entry each, appended in order); in
the results view every question has been answered and the quiz is
non-empty (the results view is only reachable by submitting the last
question). -/
def BasicInv (quiz : Quiz) (s : SessionState) : Prop :=
  s.selectedQuiz = some quiz ∧
  (s.currentView = View.quiz →
    s.userAnswers.length = s.currentQuestionIndex) ∧
  (s.currentView = View.results →
    s.userAnswers.length = quiz.questions.length ∧
    0 < quiz.questions.length)

/-- The states a basic session over `quiz` can reach. -/
def Reachable (quiz : Quiz) (s : SessionState) : Prop :=
  ∃ now, Relation.ReflTransGen BStep (startQuiz quiz now) s

end BasicQuiz

/-- The extended demo session right after submitting with no answers
recorded: the state produced by `submitQuiz` from a fresh
`startSession` over the fallback quiz. -/
def extResultsSession : QuizApp.SessionState :=
  { currentView := QuizApp.View.results
    selectedQuiz := some QuizApp.fallbackQuiz
    processedQuiz := some (QuizApp.processQuizWithSettings QuizApp.zeroRand
      QuizApp.fallbackQuiz ⟨false, false, false⟩)
    currentQuestionIndex := 0
    userAnswers := []
    startTime := some 5
    endTime := some 9
    quizSettings := ⟨false, false, false⟩ }

/-- A one-question quiz for the basic-variant witness run. -/
def miniQuiz : QuizApp.Quiz :=
  { quiz := "Mini"
    topic := "Demo"
    questions :=
      [ { questionNumber := 1
          questionText := "Q1"
          options := ["A", "B"]
          correctAnswer := "A"
          image := none } ] }

/-- The basic demo session after selecting the correct option of the
one-question `miniQuiz` and submitting it. -/
def basicResultsSession : BasicQuiz.SessionState :=
  { currentView := BasicQuiz.View.results
    selectedQuiz := some miniQuiz
    currentQuestionIndex := 0
    userAnswers := [⟨0, "A", true⟩]
    selectedAnswer := "A"
    showResult := false
    startTime := some 5
    endTime := some 9 }

/-- A concrete catalog with quizzes of 2 and 3 questions for the C5
witness. -/
def twoThreeCatalog : QuizApp.QuizData :=
  { course := "C"
    description := "D"
    quizzes :=
      [ { quiz := "First"
          topic := "T1"
          questions :=
            [ ⟨7, "A1", ["x"], "x", none⟩, ⟨9, "A2", ["y"], "y", none⟩ ] }
      , { quiz := "Second"
          topic := "T2"
          questions :=
            [ ⟨4, "B1", ["u"], "u", none⟩, ⟨2, "B2", ["v"], "v", none⟩,
              ⟨1, "B3", ["w"], "w", none⟩ ] } ] }

namespace QuizApp

/-! ### The shuffle produces a permutation -/

theorem cons_set_perm {α : Type} :
    ∀ (l : List α) (k : Nat) (a b : α), l[k]? = some b →
      (b :: l.set k a).Perm (a :: l) := by
  intro l
  induction l with
  | nil => intro k a b h; simp at h
  | cons c cs ih =>
    intro k a b h
    cases k with
    | zero =>
      simp at h
      subst h
      exact List.Perm.swap a c cs
    | succ k =>
      simp only [List.getElem?_cons_succ] at h
      simp only [List.set_cons_succ]
      exact (List.Perm.swap c b _).trans
        ((List.Perm.cons c (ih k a b h)).trans (List.Perm.swap a c cs))

theorem listSwap_perm {α : Type} :
    ∀ (l : List α) (i j : Nat), (listSwap l i j).Perm l := by
  intro l
  induction l with
  | nil => intro i j; simp [listSwap]
  | cons x xs ih =>
    intro i j
    cases i with
    | zero =>
      cases j with
      | zero => simp [listSwap]
      | succ k =>
        cases hk : xs[k]? with
        | none => simp [listSwap, hk]
        | some b =>
          simpa [listSwap, hk] using cons_set_perm xs k x b hk
    | succ m =>
      cases hm : xs[m]? with
      | none => simp [listSwap, hm]
      | some a =>
        cases j with
        | zero =>
          simpa [listSwap, hm] using cons_set_perm xs m x a hm
        | succ k =>
          cases hk : xs[k]? with
          | none => simp [listSwap, hm, hk]
          | some b =>
            have h1 : listSwap (x :: xs) (m + 1) (k + 1) =
                x :: listSwap xs m k := by
              simp [listSwap, hm, hk]
            rw [h1]
            exact List.Perm.cons x (ih m k)

theorem fisherYatesAux_perm {α : Type} (rand : Nat → Nat) :
    ∀ (i : Nat) (l : List α), (fisherYatesAux rand i l).Perm l := by
  intro i
  induction i with
  | zero => intro l; simp [fisherYatesAux]
  | succ i ih =>
    intro l
    exact (ih _).trans (listSwap_perm l (i + 1) (rand (i + 1) % (i + 2)))

/-- `shuffleArray` returns a permutation of its input, whatever the
random source produced. -/
theorem shuffleArray_perm {α : Type} (rand : Nat → Nat) (l : List α) :
    (shuffleArray rand l).Perm l :=
  fisherYatesAux_perm rand (l.length - 1) l

theorem shuffleArray_length {α : Type} (rand : Nat → Nat) (l : List α) :
    (shuffleArray rand l).length = l.length :=
  (shuffleArray_perm rand l).length_eq

/-! ### Renumbering -/


theorem renumberFrom_map_eraseNumber :
    ∀ (n : Nat) (l : List Question),
      (renumberFrom n l).map eraseNumber = l.map eraseNumber := by
  intro n l
  induction l generalizing n with
  | nil => rfl
  | cons q qs ih => simp [renumberFrom, eraseNumber, ih]

theorem renumberFrom_map_questionNumber :
    ∀ (n : Nat) (l : List Question),
      (renumberFrom n l).map Question.questionNumber =
        List.range' n l.length := by
  intro n l
  induction l generalizing n with
  | nil => rfl
  | cons q qs ih => simp [renumberFrom, List.range'_succ, ih]

theorem renumberFrom_length (n : Nat) (l : List Question) :
    (renumberFrom n l).length = l.length := by
  have := congrArg List.length (renumberFrom_map_eraseNumber n l)
  simpa using this

theorem mem_renumberFrom :
    ∀ (n : Nat) (l : List Question) (p : Question), p ∈ renumberFrom n l →
      ∃ q ∈ l, p.options = q.options ∧ p.correctAnswer = q.correctAnswer := by
  intro n l
  induction l generalizing n with
  | nil => intro p h; simp [renumberFrom] at h
  | cons q qs ih =>
    intro p h
    simp only [renumberFrom, List.mem_cons] at h
    rcases h with h | h
    · exact ⟨q, List.mem_cons_self q qs, by simp [h]⟩
    · obtain ⟨q0, hq0, he⟩ := ih (n + 1) p h
      exact ⟨q0, List.mem_cons_of_mem q hq0, he⟩

/-! ### Option shuffling -/

theorem mem_shuffleAnswerOptions :
    ∀ (aRand : Nat → Nat → Nat) (k : Nat) (l : List Question) (p : Question),
      p ∈ shuffleAnswerOptions aRand k l →
      ∃ q ∈ l, ∃ rand, p = { q with options := shuffleArray rand q.options } := by
  intro aRand k l
  induction l generalizing k with
  | nil => intro p h; simp [shuffleAnswerOptions] at h
  | cons q qs ih =>
    intro p h
    simp only [shuffleAnswerOptions, List.mem_cons] at h
    rcases h with h | h
    · exact ⟨q, List.mem_cons_self q qs, aRand k, h⟩
    · obtain ⟨q0, hq0, rand, he⟩ := ih (k + 1) p h
      exact ⟨q0, List.mem_cons_of_mem q hq0, rand, he⟩

theorem shuffleAnswerOptions_length :
    ∀ (aRand : Nat → Nat → Nat) (k : Nat) (l : List Question),
      (shuffleAnswerOptions aRand k l).length = l.length := by
  intro aRand k l
  induction l generalizing k with
  | nil => rfl
  | cons q qs ih => simp [shuffleAnswerOptions, ih]

/-- Processing never changes the number of questions. -/
theorem processQuizWithSettings_length (r : RandSrc) (quiz : Quiz)
    (settings : QuizSettings) :
    (processQuizWithSettings r quiz settings).questions.length =
      quiz.questions.length := by
  unfold processQuizWithSettings
  cases hq : settings.shuffleQuestions <;>
    cases ha : settings.shuffleAnswers <;>
      simp [hq, ha, shuffleAnswerOptions_length, renumberFrom_length,
        shuffleArray_length]

/-- C9.  Processing with both shuffle settings disabled is the identity:
the processed quiz has the same questions, in the same order, with the
same `questionNumber` fields and option orders as the original quiz
(whatever the challenge-mode flag and the random source). -/
theorem no_shuffle_identity (r : RandSrc) (quiz : Quiz) (challenge : Bool) :
    processQuizWithSettings r quiz
      ⟨false, false, challenge⟩ = quiz := rfl

/-- C2.  With question shuffling enabled (and option shuffling off, so
that questions are compared whole), processing yields a permutation of
the original questions — identical apart from their `questionNumber`
fields, which are renumbered contiguously `1..N` in the new order — for
every outcome of the random source.  The original quiz value is
untouched: `shuffleArray` copies before swapping and the renumbering
`map` builds fresh records, which is why the embedding can treat
`processQuizWithSettings` as a pure function of the original quiz. -/
theorem shuffleQuestions_permutation_renumbered (r : RandSrc) (quiz : Quiz)
    (challenge : Bool) :
    (((processQuizWithSettings r quiz
        ⟨true, false, challenge⟩).questions.map eraseNumber).Perm
      (quiz.questions.map eraseNumber)) ∧
    (processQuizWithSettings r quiz
        ⟨true, false, challenge⟩).questions.map Question.questionNumber =
      List.range' 1 quiz.questions.length := by
  have hperm := shuffleArray_perm r.qRand quiz.questions
  constructor
  · show ((renumberFrom 1 (shuffleArray r.qRand quiz.questions)).map
      eraseNumber).Perm (quiz.questions.map eraseNumber)
    rw [renumberFrom_map_eraseNumber]
    exact hperm.map eraseNumber
  · show (renumberFrom 1 (shuffleArray r.qRand quiz.questions)).map
      Question.questionNumber = List.range' 1 quiz.questions.length
    rw [renumberFrom_map_questionNumber, hperm.length_eq]

/-- C3.  With option shuffling enabled, every processed question comes
from an original question with the same multiset of options and the very
same `correctAnswer`; under the data-model invariant
`correctAnswer ∈ options` the correct answer is still a member of the
shuffled option list.  Stated for arbitrary settings with
`shuffleAnswers` on, so it also covers sessions that shuffle questions. -/
theorem shuffleAnswers_preserves_options_and_correct (r : RandSrc)
    (quiz : Quiz) (settings : QuizSettings)
    (hs : settings.shuffleAnswers = true)
    (hinv : ∀ q ∈ quiz.questions, q.correctAnswer ∈ q.options) :
    ∀ p ∈ (processQuizWithSettings r quiz settings).questions,
      ∃ q ∈ quiz.questions, p.options.Perm q.options ∧
        p.correctAnswer = q.correctAnswer ∧ p.correctAnswer ∈ p.options := by
  intro p hp
  unfold processQuizWithSettings at hp
  rw [hs] at hp
  simp only [if_true] at hp
  obtain ⟨q1, hq1, rand, he⟩ := mem_shuffleAnswerOptions r.aRand 0 _ p hp
  have hq1' : ∃ q ∈ quiz.questions,
      q1.options = q.options ∧ q1.correctAnswer = q.correctAnswer := by
    by_cases hsq : settings.shuffleQuestions = true
    · rw [hsq] at hq1
      simp only [if_true] at hq1
      obtain ⟨q0, hq0, ho, hc⟩ := mem_renumberFrom 1 _ q1 hq1
      exact ⟨q0, (shuffleArray_perm r.qRand quiz.questions).mem_iff.mp hq0,
        ho, hc⟩
    · rw [Bool.not_eq_true] at hsq
      rw [hsq] at hq1
      simp only [Bool.false_eq_true, if_false] at hq1
      exact ⟨q1, hq1, rfl, rfl⟩
  obtain ⟨q, hq, ho, hc⟩ := hq1'
  subst he
  refine ⟨q, hq, ?_, ?_, ?_⟩
  · rw [ho] at *
    exact shuffleArray_perm rand q.options
  · exact hc
  · show q1.correctAnswer ∈ shuffleArray rand q1.options
    rw [(shuffleArray_perm rand q1.options).mem_iff, ho, hc]
    exact hinv q hq

/-! ### The Master Challenge quiz -/

theorem appendAllQuestions_map_eraseNumber :
    ∀ (qs : List Quiz) (c : Nat),
      (appendAllQuestions qs c).map eraseNumber =
        (qs.map fun z => z.questions.map eraseNumber).flatten := by
  intro qs
  induction qs with
  | nil => intro c; rfl
  | cons z rest ih =>
    intro c
    simp [appendAllQuestions, renumberFrom_map_eraseNumber, ih]

theorem appendAllQuestions_map_questionNumber :
    ∀ (qs : List Quiz) (c : Nat),
      (appendAllQuestions qs c).map Question.questionNumber =
        List.range' c (qs.map fun z => z.questions.length).sum := by
  intro qs
  induction qs with
  | nil => intro c; rfl
  | cons z rest ih =>
    intro c
    have happ := List.range'_append c z.questions.length
      ((rest.map fun z => z.questions.length).sum) 1
    simp only [one_mul] at happ
    calc (appendAllQuestions (z :: rest) c).map Question.questionNumber
        = List.range' c z.questions.length ++
            List.range' (c + z.questions.length)
              ((rest.map fun z => z.questions.length).sum) := by
          simp [appendAllQuestions, renumberFrom_map_questionNumber, ih]
      _ = List.range' c
            ((rest.map fun z => z.questions.length).sum +
              z.questions.length) := happ
      _ = List.range' c ((z :: rest).map fun z => z.questions.length).sum := by
          simp [Nat.add_comm]

/-- C5.  The "Master Challenge" quiz is exactly the concatenation, in
catalog order, of all questions of all catalog quizzes, renumbered
sequentially `1..total`; in particular a catalog whose two quizzes have
2 and 3 questions yields 5 questions numbered `1,2,3,4,5`. -/
theorem masterChallenge_concatenates_renumbered :
    (∀ quizData : QuizData,
      (createAllQuestionsQuiz quizData).questions.map eraseNumber =
        (quizData.quizzes.map fun z => z.questions.map eraseNumber).flatten ∧
      (createAllQuestionsQuiz quizData).questions.map
          Question.questionNumber =
        List.range' 1 (quizData.quizzes.map fun z => z.questions.length).sum ∧
      (createAllQuestionsQuiz quizData).questions.length =
        (quizData.quizzes.map fun z => z.questions.length).sum) ∧
    (∀ quizData : QuizData,
      (quizData.quizzes.map fun z => z.questions.length) = [2, 3] →
      (createAllQuestionsQuiz quizData).questions.length = 5 ∧
      (createAllQuestionsQuiz quizData).questions.map
          Question.questionNumber = [1, 2, 3, 4, 5]) := by
  have main : ∀ quizData : QuizData,
      (createAllQuestionsQuiz quizData).questions.map eraseNumber =
        (quizData.quizzes.map fun z => z.questions.map eraseNumber).flatten ∧
      (createAllQuestionsQuiz quizData).questions.map
          Question.questionNumber =
        List.range' 1 (quizData.quizzes.map fun z => z.questions.length).sum ∧
      (createAllQuestionsQuiz quizData).questions.length =
        (quizData.quizzes.map fun z => z.questions.length).sum := by
    intro quizData
    refine ⟨appendAllQuestions_map_eraseNumber quizData.quizzes 1,
      appendAllQuestions_map_questionNumber quizData.quizzes 1, ?_⟩
    have := congrArg List.length
      (appendAllQuestions_map_questionNumber quizData.quizzes 1)
    simpa using this
  refine ⟨main, fun quizData h => ?_⟩
  obtain ⟨-, hnum, hlen⟩ := main quizData
  rw [h] at hnum hlen
  refine ⟨by simpa using hlen, ?_⟩
  rw [hnum]
  rfl

/-! ### Answer selection is an upsert -/


theorem findIndexAux_ge {α : Type} (p : α → Bool) :
    ∀ (l : List α) (k : Nat),
      findIndexAux p l k = -1 ∨ (k : Int) ≤ findIndexAux p l k := by
  intro l
  induction l with
  | nil => intro k; left; rfl
  | cons a as ih =>
    intro k
    by_cases hpa : p a
    · right; simp [findIndexAux, hpa]
    · rcases ih (k + 1) with h | h
      · left; simp [findIndexAux, hpa, h]
      · right
        simp only [findIndexAux, hpa, if_false, Bool.false_eq_true]
        push_cast at h
        omega

theorem findIndexAux_shift {α : Type} (p : α → Bool) :
    ∀ (l : List α) (k : Nat),
      findIndexAux p l (k + 1) =
        if findIndexAux p l k = -1 then -1 else findIndexAux p l k + 1 := by
  intro l
  induction l with
  | nil => intro k; rfl
  | cons a as ih =>
    intro k
    by_cases hpa : p a
    · have hk : ¬((k : Int) = -1) := by omega
      simp [findIndexAux, hpa, hk]
    · simp only [findIndexAux, hpa, if_false, Bool.false_eq_true]
      exact ih (k + 1)

theorem handleAnswerSelect_eq_upsertFirst :
    ∀ (l : List UserAnswer) (idx : Nat) (ans : String),
      handleAnswerSelect l idx ans = upsertFirst idx ans l := by
  intro l
  induction l with
  | nil => intro idx ans; rfl
  | cons a as ih =>
    intro idx ans
    by_cases hpa : (a.questionIndex == idx) = true
    · simp [handleAnswerSelect, findIndexAux, hpa, upsertFirst]
    · have hshift := findIndexAux_shift
        (fun x : UserAnswer => x.questionIndex == idx) as 0
      rcases findIndexAux_ge (fun x : UserAnswer => x.questionIndex == idx)
          as 0 with h0 | h0
      · have hs : findIndexAux
            (fun x : UserAnswer => x.questionIndex == idx) as 1 = -1 := by
          rw [hshift, h0]; simp
        simp only [handleAnswerSelect, findIndexAux, hpa, if_false,
          Bool.false_eq_true, upsertFirst, hs]
        simp only [ne_eq, not_true_eq_false, if_false]
        rw [← ih idx ans]
        simp [handleAnswerSelect, h0]
      · set i0 := findIndexAux
          (fun x : UserAnswer => x.questionIndex == idx) as 0 with hi0
        have hne : i0 ≠ -1 := by omega
        have hs : findIndexAux
            (fun x : UserAnswer => x.questionIndex == idx) as 1 = i0 + 1 := by
          rw [hshift, if_neg hne]
        have htn : (i0 + 1).toNat = i0.toNat + 1 := by omega
        have hne1 : i0 + 1 ≠ -1 := by omega
        simp only [handleAnswerSelect, findIndexAux, hpa, if_false,
          Bool.false_eq_true, upsertFirst, hs]
        simp only [ne_eq, hne1, not_false_eq_true, if_true, htn,
          List.set_cons_succ]
        rw [← ih idx ans]
        simp [handleAnswerSelect, ← hi0, hne]


theorem upsertFirst_filter_eq (idx : Nat) (ans : String) :
    ∀ l : List UserAnswer,
      (l.countP fun a => a.questionIndex == idx) ≤ 1 →
      (upsertFirst idx ans l).filter (fun a => a.questionIndex == idx) =
        [⟨idx, ans, none⟩] := by
  intro l
  induction l with
  | nil => intro _; simp [upsertFirst]
  | cons a as ih =>
    intro hcount
    by_cases hpa : (a.questionIndex == idx) = true
    · have hz : (as.countP fun x => x.questionIndex == idx) = 0 := by
        rw [List.countP_cons, hpa] at hcount
        simp only [if_true] at hcount
        omega
      have hnil : as.filter (fun x => x.questionIndex == idx) = [] :=
        List.filter_eq_nil_iff.mpr (List.countP_eq_zero.mp hz)
      simp [upsertFirst, hpa, List.filter_cons, hnil]
    · rw [List.countP_cons, if_neg hpa] at hcount
      simp only [upsertFirst, hpa, if_false, Bool.false_eq_true]
      rw [List.filter_cons_of_neg (by simpa using hpa)]
      exact ih (by omega)

theorem upsertFirst_countP_other (idx : Nat) (ans : String) (i : Nat)
    (hne : i ≠ idx) :
    ∀ l : List UserAnswer,
      ((upsertFirst idx ans l).countP fun a => a.questionIndex == i) =
        l.countP fun a => a.questionIndex == i := by
  intro l
  induction l with
  | nil => simp [upsertFirst, List.countP_cons, hne.symm]
  | cons a as ih =>
    by_cases hpa : (a.questionIndex == idx) = true
    · have ha : a.questionIndex = idx := by simpa using hpa
      simp only [upsertFirst, hpa, if_true]
      rw [List.countP_cons, List.countP_cons]
      have h1 : ((⟨idx, ans, none⟩ : UserAnswer).questionIndex == i) = false := by
        simpa using fun h => hne h.symm
      have h2 : (a.questionIndex == i) = false := by
        rw [ha]; simpa using fun h => hne h.symm
      rw [h1, h2]
    · simp only [upsertFirst, hpa, if_false, Bool.false_eq_true]
      rw [List.countP_cons, List.countP_cons, ih]

theorem handleAnswerSelect_atMostOne (l : List UserAnswer) (idx : Nat)
    (ans : String) (hl : AtMostOnePerIndex l) :
    AtMostOnePerIndex (handleAnswerSelect l idx ans) := by
  intro i
  rw [handleAnswerSelect_eq_upsertFirst]
  by_cases hi : i = idx
  · rw [hi, List.countP_eq_length_filter,
      upsertFirst_filter_eq idx ans l (hl idx)]
    simp
  · rw [upsertFirst_countP_other idx ans i hi]
    exact hl i

theorem mem_upsertFirst (idx : Nat) (ans : String) :
    ∀ (l : List UserAnswer) (b : UserAnswer), b ∈ upsertFirst idx ans l →
      b = ⟨idx, ans, none⟩ ∨ b ∈ l := by
  intro l
  induction l with
  | nil => intro b hb; simpa [upsertFirst] using hb
  | cons a as ih =>
    intro b hb
    by_cases hpa : (a.questionIndex == idx) = true
    · simp only [upsertFirst, hpa, if_true, List.mem_cons] at hb
      rcases hb with h | h
      · exact Or.inl h
      · exact Or.inr (List.mem_cons_of_mem a h)
    · simp only [upsertFirst, hpa, if_false, Bool.false_eq_true,
        List.mem_cons] at hb
      rcases hb with h | h
      · exact Or.inr (by simp [h])
      · rcases ih b h with h1 | h1
        · exact Or.inl h1
        · exact Or.inr (List.mem_cons_of_mem a h1)

/-- C4.  Selecting an answer is an upsert: it preserves the invariant
that the answer list holds at most one entry per question index, and
selecting twice for the same question index leaves exactly one recorded
answer for that index, holding the latest selected value. -/
theorem answer_upsert_idempotent_unique (answers : List UserAnswer)
    (idx : Nat) (first latest : String)
    (hinv : AtMostOnePerIndex answers) :
    (∀ ans : String, AtMostOnePerIndex (handleAnswerSelect answers idx ans)) ∧
    (handleAnswerSelect (handleAnswerSelect answers idx first) idx
        latest).filter (fun a => a.questionIndex == idx) =
      [⟨idx, latest, none⟩] := by
  refine ⟨fun ans => handleAnswerSelect_atMostOne answers idx ans hinv, ?_⟩
  rw [handleAnswerSelect_eq_upsertFirst]
  apply upsertFirst_filter_eq
  exact handleAnswerSelect_atMostOne answers idx first hinv idx

/-- Witness for C4 at a concrete answer list. -/
theorem answer_upsert_idempotent_unique_witness :
    AtMostOnePerIndex [⟨0, "A", none⟩] ∧
    ((∀ ans : String,
        AtMostOnePerIndex (handleAnswerSelect [⟨0, "A", none⟩] 0 ans)) ∧
      (handleAnswerSelect (handleAnswerSelect [⟨0, "A", none⟩] 0 "B") 0
          "C").filter (fun a => a.questionIndex == 0) = [⟨0, "C", none⟩]) := by
  have hinv : AtMostOnePerIndex [⟨0, "A", none⟩] := by
    intro i
    simp only [List.countP_cons, List.countP_nil]
    split <;> simp
  exact ⟨hinv, answer_upsert_idempotent_unique [⟨0, "A", none⟩] 0 "B" "C" hinv⟩




/-! ### Challenge-mode restart, submission, navigation -/

/-- C6.  In challenge mode, selecting any option other than the current
question's correct answer yields exactly the restarted session: index 0,
empty answer list (so the selection is not recorded), fresh start
timestamp, cleared end timestamp, and a processed quiz recomputed from
the selected quiz under the current settings — reshuffled when shuffle
is enabled, because `processQuizWithSettings` consumes the fresh random
source `r`. -/
theorem challenge_wrong_selection_restarts (s : SessionState)
    (pq sq : Quiz) (q : Question) (answer : String) (r : RandSrc)
    (now : Nat)
    (hpq : s.processedQuiz = some pq)
    (hq : pq.questions[s.currentQuestionIndex]? = some q)
    (hchal : s.quizSettings.restartOnIncorrect = true)
    (hwrong : answer ≠ q.correctAnswer)
    (hsel : s.selectedQuiz = some sq) :
    selectAnswer answer r now s = some
      { s with
        processedQuiz :=
          some (processQuizWithSettings r sq s.quizSettings)
        currentQuestionIndex := 0
        userAnswers := []
        startTime := some now
        endTime := none
        currentView := View.quiz } := by
  unfold selectAnswer
  rw [hpq]
  simp only [hq]
  rw [if_pos ⟨hchal, hwrong⟩]
  unfold restartQuiz
  rw [hsel]

/-- Witness for C6: a wrong selection on the first question of the demo
quiz in challenge mode. -/
theorem challenge_wrong_selection_restarts_witness :
    (startSession fallbackQuiz ⟨false, false, true⟩ zeroRand
        5).processedQuiz = some fallbackQuiz ∧
    selectAnswer "Faster execution" zeroRand 9
        (startSession fallbackQuiz ⟨false, false, true⟩ zeroRand 5) =
      some { startSession fallbackQuiz ⟨false, false, true⟩ zeroRand 5 with
        processedQuiz :=
          some (processQuizWithSettings zeroRand fallbackQuiz
            ⟨false, false, true⟩)
        currentQuestionIndex := 0
        userAnswers := []
        startTime := some 9
        endTime := none
        currentView := View.quiz } := by
  refine ⟨by decide, ?_⟩
  exact challenge_wrong_selection_restarts
    (startSession fallbackQuiz ⟨false, false, true⟩ zeroRand 5)
    fallbackQuiz fallbackQuiz
    (fallbackQuiz.questions.get ⟨0, by decide⟩)
    "Faster execution" zeroRand 9 (by decide) (by decide) (by decide)
    (by decide) (by decide)

/-- `markAnswers` succeeds when every recorded index is in bounds, and
the scored list keeps indices and selections while setting `isCorrect`
by comparison with the processed question at the answer's index. -/
theorem markAnswers_spec (pq : Quiz) :
    ∀ l : List UserAnswer,
      (∀ a ∈ l, a.questionIndex < pq.questions.length) →
      ∃ l', markAnswers pq l = some l' ∧
        l'.map UserAnswer.questionIndex = l.map UserAnswer.questionIndex ∧
        List.Forall₂ (fun a a' =>
          a'.questionIndex = a.questionIndex ∧
          a'.selectedAnswer = a.selectedAnswer ∧
          ∃ q, pq.questions[a.questionIndex]? = some q ∧
            (a'.isCorrect = some true ↔
              a.selectedAnswer = q.correctAnswer)) l l' ∧
        (∀ a' ∈ l', ∃ a ∈ l, a'.questionIndex = a.questionIndex ∧
          a'.selectedAnswer = a.selectedAnswer) := by
  intro l
  induction l with
  | nil =>
    intro _
    exact ⟨[], rfl, rfl, List.Forall₂.nil, by simp⟩
  | cons a rest ih =>
    intro hb
    have ha : a.questionIndex < pq.questions.length :=
      hb a (List.mem_cons_self a rest)
    obtain ⟨q, hq⟩ : ∃ q, pq.questions[a.questionIndex]? = some q := by
      rw [List.getElem?_eq_getElem ha]
      exact ⟨_, rfl⟩
    obtain ⟨l', hl', hmap, hfa, hmem⟩ :=
      ih fun x hx => hb x (List.mem_cons_of_mem a hx)
    refine ⟨{ a with
        isCorrect := some (a.selectedAnswer = q.correctAnswer) } :: l',
      ?_, ?_, ?_, ?_⟩
    · simp only [markAnswers, hq, hl']
      rfl
    · simp [hmap]
    · refine List.Forall₂.cons ⟨rfl, rfl, q, hq, ?_⟩ hfa
      simp
    · intro a' ha'
      rcases List.mem_cons.mp ha' with h | h
      · exact ⟨a, List.mem_cons_self a rest, by simp [h]⟩
      · obtain ⟨x, hx, hxe⟩ := hmem a' h
        exact ⟨x, List.mem_cons_of_mem a hx, hxe⟩

/-- C7.  Submitting scores every recorded answer (`isCorrect` is `true`
exactly when the selection equals the correct answer of the processed
question at the answer's index), stamps the end time, moves to the
results view, and leaves the recorded question indices unchanged — in
particular unanswered questions gain no entry. -/
theorem submit_scores_and_preserves_indices (s : SessionState) (pq : Quiz)
    (now : Nat)
    (hpq : s.processedQuiz = some pq)
    (hb : ∀ a ∈ s.userAnswers, a.questionIndex < pq.questions.length) :
    ∃ s', submitQuiz now s = some s' ∧
      s'.currentView = View.results ∧
      s'.endTime = some now ∧
      s'.userAnswers.map UserAnswer.questionIndex =
        s.userAnswers.map UserAnswer.questionIndex ∧
      List.Forall₂ (fun a a' =>
        a'.questionIndex = a.questionIndex ∧
        a'.selectedAnswer = a.selectedAnswer ∧
        ∃ q, pq.questions[a.questionIndex]? = some q ∧
          (a'.isCorrect = some true ↔
            a.selectedAnswer = q.correctAnswer)) s.userAnswers
        s'.userAnswers := by
  obtain ⟨l', hl', hmap, hfa, -⟩ := markAnswers_spec pq s.userAnswers hb
  refine ⟨{ s with
      userAnswers := l'
      endTime := some now
      currentView := View.results }, ?_, rfl, rfl, hmap, hfa⟩
  unfold submitQuiz
  rw [hpq]
  simp only [hl']
  rfl

/-- Witness for C7: submitting the demo session after answering the
first question. -/
theorem submit_scores_and_preserves_indices_witness :
    ((startSession fallbackQuiz ⟨false, false, false⟩ zeroRand
        5).processedQuiz = some fallbackQuiz ∧
      ∀ a ∈ [(⟨0, "Python", none⟩ : UserAnswer)],
        a.questionIndex < fallbackQuiz.questions.length) ∧
    ∃ s', submitQuiz 9
        { startSession fallbackQuiz ⟨false, false, false⟩ zeroRand 5 with
          userAnswers := [⟨0, "Python", none⟩] } = some s' ∧
      s'.currentView = View.results ∧
      s'.endTime = some 9 ∧
      s'.userAnswers.map UserAnswer.questionIndex =
        ([⟨0, "Python", none⟩] : List UserAnswer).map
          UserAnswer.questionIndex ∧
      List.Forall₂ (fun a a' =>
        a'.questionIndex = a.questionIndex ∧
        a'.selectedAnswer = a.selectedAnswer ∧
        ∃ q, fallbackQuiz.questions[a.questionIndex]? = some q ∧
          (a'.isCorrect = some true ↔
            a.selectedAnswer = q.correctAnswer))
        [(⟨0, "Python", none⟩ : UserAnswer)] s'.userAnswers := by
  refine ⟨⟨by decide, by decide⟩, ?_⟩
  exact submit_scores_and_preserves_indices
    { startSession fallbackQuiz ⟨false, false, false⟩ zeroRand 5 with
      userAnswers := [⟨0, "Python", none⟩] }
    fallbackQuiz 9 (by decide) (by decide)

/-! ### Invariant preservation -/

theorem countP_index_eq_of_map_eq (l l' : List UserAnswer)
    (h : l'.map UserAnswer.questionIndex = l.map UserAnswer.questionIndex)
    (i : Nat) :
    (l'.countP fun a => a.questionIndex == i) =
      l.countP fun a => a.questionIndex == i := by
  have h2 := congrArg (List.countP fun n => n == i) h
  simpa [List.countP_map, Function.comp] using h2

theorem restartQuiz_inv {sq : Quiz} {settings : QuizSettings}
    {s : SessionState} (r : RandSrc) (now : Nat)
    (hN : 0 < sq.questions.length)
    (hqsel : s.selectedQuiz = some sq)
    (hset : s.quizSettings = settings) :
    SessionInv sq settings (restartQuiz r now s) := by
  have hr : restartQuiz r now s =
      { s with
        processedQuiz := some (processQuizWithSettings r sq s.quizSettings)
        currentQuestionIndex := 0
        userAnswers := []
        startTime := some now
        endTime := none
        currentView := View.quiz } := by
    unfold restartQuiz
    rw [hqsel]
  rw [hr]
  refine ⟨hqsel, hset, hN, ?_, ?_, processQuizWithSettings r sq s.quizSettings,
    rfl, ?_, ?_⟩
  · intro i; simp [List.countP_nil]
  · intro a ha; simp at ha
  · rw [hset, processQuizWithSettings_length]
  · intro _ a ha; simp at ha

theorem startSession_inv (sq : Quiz) (settings : QuizSettings)
    (r : RandSrc) (now : Nat) (hN : 0 < sq.questions.length) :
    SessionInv sq settings (startSession sq settings r now) := by
  unfold startSession startQuiz
  refine ⟨rfl, rfl, hN, ?_, ?_, processQuizWithSettings r sq settings,
    rfl, processQuizWithSettings_length r sq settings, ?_⟩
  · intro i; simp [List.countP_nil]
  · intro a ha; simp at ha
  · intro _ a ha; simp at ha

theorem estep_inv {sq : Quiz} {settings : QuizSettings}
    {s s' : SessionState} (hN : 0 < sq.questions.length)
    (hinv : SessionInv sq settings s) (hstep : EStep s s') :
    SessionInv sq settings s' := by
  obtain ⟨hqsel, hset, hidx, hone, hbnd, pq, hpq, hlen, hchal⟩ := hinv
  cases hstep with
  | select answer r now s s' hview hsel =>
    unfold selectAnswer at hsel
    simp only [hpq] at hsel
    cases heq : pq.questions[s.currentQuestionIndex]? with
    | none => rw [heq] at hsel; simp at hsel
    | some q =>
      simp only [heq] at hsel
      by_cases hc : s.quizSettings.restartOnIncorrect = true ∧
          answer ≠ q.correctAnswer
      · rw [if_pos hc] at hsel
        cases hsel
        exact restartQuiz_inv r now hN hqsel hset
      · rw [if_neg hc] at hsel
        cases hsel
        refine ⟨hqsel, hset, hidx,
          handleAnswerSelect_atMostOne _ _ _ hone, ?_, pq, rfl, hlen, ?_⟩
        · intro a ha
          rw [handleAnswerSelect_eq_upsertFirst] at ha
          rcases mem_upsertFirst _ _ _ a ha with h | h
          · rw [h]; exact hidx
          · exact hbnd a h
        · intro hro a ha
          rw [handleAnswerSelect_eq_upsertFirst] at ha
          rcases mem_upsertFirst _ _ _ a ha with h | h
          · have hans : answer = q.correctAnswer := by
              by_contra hne
              exact hc ⟨hset ▸ hro, hne⟩
            exact ⟨q, by rw [h]; exact heq, by rw [h]; exact hans⟩
          · exact hchal hro a h
  | navigate index s hview =>
    unfold navigateToQuestion
    simp only [hpq]
    by_cases hin : 0 ≤ index ∧ index < (pq.questions.length : Int)
    · rw [if_pos hin]
      refine ⟨hqsel, hset, ?_, hone, hbnd, pq, rfl, hlen, hchal⟩
      show index.toNat < sq.questions.length
      have h2 := hin.2
      omega
    · rw [if_neg hin]
      exact ⟨hqsel, hset, hidx, hone, hbnd, pq, hpq, hlen, hchal⟩
  | submit now s s' hview hsub =>
    unfold submitQuiz at hsub
    simp only [hpq] at hsub
    obtain ⟨l', hl', hmap, -, hmem⟩ := markAnswers_spec pq s.userAnswers
      (fun a ha => by rw [hlen]; exact hbnd a ha)
    rw [hl'] at hsub
    simp only [Option.map_some'] at hsub
    cases hsub
    refine ⟨hqsel, hset, hidx, ?_, ?_, pq, rfl, hlen, ?_⟩
    · intro i
      rw [countP_index_eq_of_map_eq s.userAnswers l' hmap i]
      exact hone i
    · intro a ha
      obtain ⟨a0, ha0, hie, -⟩ := hmem a ha
      rw [hie]
      exact hbnd a0 ha0
    · intro hro a ha
      obtain ⟨a0, ha0, hie, hse⟩ := hmem a ha
      obtain ⟨q, hq, hcorr⟩ := hchal hro a0 ha0
      exact ⟨q, by rw [hie]; exact hq, by rw [hse, hie] at *; exact hcorr⟩
  | retake r now s hview =>
    exact restartQuiz_inv r now hN hqsel hset

/-- Every state of a running session over a non-empty quiz satisfies the
session invariant. -/
theorem reachable_inv {sq : Quiz} {settings : QuizSettings}
    {s : SessionState} (hN : 0 < sq.questions.length)
    (hreach : Reachable sq settings s) : SessionInv sq settings s := by
  obtain ⟨r, now, hsteps⟩ := hreach
  induction hsteps with
  | refl => exact startSession_inv sq settings r now hN
  | tail hsteps hstep ih => exact estep_inv hN ih hstep

/-- C8.  Navigation is a bounds-checked no-op outside `[0, N)`: (i) a
target index below `0` or at/above the question count leaves the whole
state unchanged; (ii) an in-range target is always adopted — the
function never consults the answer list, and the statement quantifies
over states with arbitrary recorded answers; (iii) consequently, in
every reachable session state over a non-empty quiz the current
question index is a valid index into the processed quiz's question
list. -/
theorem navigation_bounds_checked :
    (∀ (s : SessionState) (pq : Quiz) (index : Int),
      s.processedQuiz = some pq →
      (index < 0 ∨ (pq.questions.length : Int) ≤ index) →
      navigateToQuestion index s = s) ∧
    (∀ (s : SessionState) (pq : Quiz) (index : Int),
      s.processedQuiz = some pq →
      0 ≤ index → index < (pq.questions.length : Int) →
      (navigateToQuestion index s).currentQuestionIndex = index.toNat) ∧
    (∀ (sq : Quiz) (settings : QuizSettings) (s : SessionState),
      0 < sq.questions.length → Reachable sq settings s →
      ∀ pq, s.processedQuiz = some pq →
      s.currentQuestionIndex < pq.questions.length) := by
  refine ⟨?_, ?_, ?_⟩
  · intro s pq index hpq hout
    unfold navigateToQuestion
    simp only [hpq]
    rw [if_neg]
    intro ⟨h1, h2⟩
    omega
  · intro s pq index hpq h0 h2
    unfold navigateToQuestion
    simp only [hpq]
    rw [if_pos ⟨h0, h2⟩]
  · intro sq settings s hN hreach pq hpq
    obtain ⟨-, -, hidx, -, -, pq0, hpq0, hlen0, -⟩ := reachable_inv hN hreach
    rw [hpq] at hpq0
    cases hpq0
    omega

/-- Witness for C8 on the demo session: out-of-range targets `-1` and
`7` are no-ops, the in-range target `1` is adopted, and the freshly
started session's index is in bounds. -/
theorem navigation_bounds_checked_witness :
    ((startSession fallbackQuiz ⟨false, false, false⟩ zeroRand
        5).processedQuiz = some fallbackQuiz ∧
      ((-1 : Int) < 0 ∨
        ((fallbackQuiz.questions.length : Int) ≤ -1)) ∧
      (0 : Int) ≤ 1 ∧ (1 : Int) < (fallbackQuiz.questions.length : Int) ∧
      0 < fallbackQuiz.questions.length) ∧
    navigateToQuestion (-1)
        (startSession fallbackQuiz ⟨false, false, false⟩ zeroRand 5) =
      startSession fallbackQuiz ⟨false, false, false⟩ zeroRand 5 ∧
    (navigateToQuestion 1
        (startSession fallbackQuiz ⟨false, false, false⟩ zeroRand
          5)).currentQuestionIndex = (1 : Int).toNat ∧
    (startSession fallbackQuiz ⟨false, false, false⟩ zeroRand
        5).currentQuestionIndex < fallbackQuiz.questions.length := by
  refine ⟨⟨by decide, by decide, by decide, by decide, by decide⟩, ?_, ?_, ?_⟩
  · exact navigation_bounds_checked.1
      (startSession fallbackQuiz ⟨false, false, false⟩ zeroRand 5)
      fallbackQuiz (-1) (by decide) (by decide)
  · exact navigation_bounds_checked.2.1
      (startSession fallbackQuiz ⟨false, false, false⟩ zeroRand 5)
      fallbackQuiz 1 (by decide) (by decide) (by decide)
  · exact navigation_bounds_checked.2.2 fallbackQuiz ⟨false, false, false⟩
      (startSession fallbackQuiz ⟨false, false, false⟩ zeroRand 5)
      (by decide) ⟨zeroRand, 5, Relation.ReflTransGen.refl⟩
      fallbackQuiz (by decide)

/-- C10.  In challenge mode, every pre-submit reachable session state
records only correct selections: each entry of the answer list equals
the correct answer of the processed quiz's question at its index. -/
theorem challenge_only_correct_recorded (sq : Quiz)
    (settings : QuizSettings) (s : SessionState)
    (hN : 0 < sq.questions.length)
    (hreach : Reachable sq settings s)
    (hchal : settings.restartOnIncorrect = true)
    (_hview : s.currentView = View.quiz) :
    ∀ pq, s.processedQuiz = some pq →
      ∀ a ∈ s.userAnswers, ∃ q, pq.questions[a.questionIndex]? = some q ∧
        a.selectedAnswer = q.correctAnswer := by
  intro pq hpq
  obtain ⟨-, -, -, -, -, pq0, hpq0, -, hch⟩ := reachable_inv hN hreach
  rw [hpq] at hpq0
  cases hpq0
  exact hch hchal

/-- Witness for C10: a freshly started challenge-mode demo session. -/
theorem challenge_only_correct_recorded_witness :
    (0 < fallbackQuiz.questions.length ∧
      Reachable fallbackQuiz ⟨false, false, true⟩
        (startSession fallbackQuiz ⟨false, false, true⟩ zeroRand 5) ∧
      (⟨false, false, true⟩ : QuizSettings).restartOnIncorrect = true ∧
      (startSession fallbackQuiz ⟨false, false, true⟩ zeroRand
        5).currentView = View.quiz) ∧
    ∀ pq, (startSession fallbackQuiz ⟨false, false, true⟩ zeroRand
        5).processedQuiz = some pq →
      ∀ a ∈ (startSession fallbackQuiz ⟨false, false, true⟩ zeroRand
          5).userAnswers,
        ∃ q, pq.questions[a.questionIndex]? = some q ∧
          a.selectedAnswer = q.correctAnswer := by
  refine ⟨⟨by decide, ⟨zeroRand, 5, Relation.ReflTransGen.refl⟩, rfl, rfl⟩, ?_⟩
  exact challenge_only_correct_recorded fallbackQuiz ⟨false, false, true⟩
    (startSession fallbackQuiz ⟨false, false, true⟩ zeroRand 5)
    (by decide) ⟨zeroRand, 5, Relation.ReflTransGen.refl⟩ rfl rfl

/-! ### Percentage bound helpers -/

theorem atMostOne_length_le (l : List UserAnswer) (N : Nat)
    (hone : AtMostOnePerIndex l)
    (hbnd : ∀ a ∈ l, a.questionIndex < N) : l.length ≤ N := by
  set m := l.map UserAnswer.questionIndex with hm
  have hnd : m.Nodup := by
    rw [List.nodup_iff_count_le_one]
    intro i
    have : m.count i = l.countP fun a => a.questionIndex == i := by
      rw [hm, List.count, List.countP_map]
      rfl
    rw [this]
    exact hone i
  have hsub : m.toFinset ⊆ Finset.range N := by
    intro x hx
    rw [List.mem_toFinset] at hx
    rw [hm] at hx
    obtain ⟨a, ha, hax⟩ := List.mem_map.mp hx
    rw [Finset.mem_range, ← hax]
    exact hbnd a ha
  have hcard : m.toFinset.card = m.length := List.toFinset_card_of_nodup hnd
  have := Finset.card_le_card hsub
  rw [hcard, Finset.card_range] at this
  rw [hm, List.length_map] at this
  exact this

theorem jsRound_le_100 (c t : Nat) (h : c ≤ t) (ht : 0 < t) :
    jsRound (100 * c) t ≤ 100 := by
  unfold jsRound
  have hlt : 2 * (100 * c) + t < 101 * (2 * t) := by omega
  have := (Nat.div_lt_iff_lt_mul (show 0 < 2 * t by omega)).mpr hlt
  omega

end QuizApp

namespace BasicQuiz

open QuizApp (Quiz Question jsRound)


theorem basic_start_inv (quiz : Quiz) (now : Nat) :
    BasicInv quiz (startQuiz quiz now) := by
  refine ⟨rfl, fun _ => rfl, fun h => ?_⟩
  simp [startQuiz] at h

theorem basic_step_inv {quiz : Quiz} {s s' : SessionState}
    (hinv : BasicInv quiz s) (hstep : BStep s s') : BasicInv quiz s' := by
  obtain ⟨hqsel, hquiz, hres⟩ := hinv
  cases hstep with
  | selectAns answer s hview hshow =>
    exact ⟨hqsel, hquiz, hres⟩
  | submitAns now s s' hview hsub =>
    unfold submitAnswer at hsub
    simp only [hqsel] at hsub
    by_cases hemp : s.selectedAnswer = ""
    · rw [if_pos hemp] at hsub
      cases hsub
      exact ⟨hqsel, hquiz, hres⟩
    · rw [if_neg hemp] at hsub
      cases heq : quiz.questions[s.currentQuestionIndex]? with
      | none =>
        simp only [heq] at hsub
        exact Option.noConfusion hsub
      | some q =>
        simp only [heq] at hsub
        have hidx : s.currentQuestionIndex < quiz.questions.length := by
          obtain ⟨h1, -⟩ := List.getElem?_eq_some_iff.mp heq
          exact h1
        by_cases hlt : s.currentQuestionIndex < quiz.questions.length - 1
        · rw [if_pos hlt] at hsub
          cases hsub
          refine ⟨rfl, fun _ => ?_, fun h => ?_⟩
          · show (s.userAnswers ++ [_]).length = s.currentQuestionIndex + 1
            rw [List.length_append, hquiz hview]
            rfl
          · rw [show ({ s with
                currentQuestionIndex := s.currentQuestionIndex + 1
                userAnswers := s.userAnswers ++
                  [{ questionIndex := s.currentQuestionIndex
                     selectedAnswer := s.selectedAnswer
                     isCorrect :=
                       decide (s.selectedAnswer = q.correctAnswer) }]
                selectedAnswer := ""
                showResult := false } : SessionState).currentView =
              s.currentView from rfl, hview] at h
            simp at h
        · rw [if_neg hlt] at hsub
          cases hsub
          refine ⟨rfl, fun h => ?_, fun _ => ⟨?_, ?_⟩⟩
          · simp at h
          · show (s.userAnswers ++ [_]).length = quiz.questions.length
            rw [List.length_append, hquiz hview]
            simp only [List.length_cons, List.length_nil]
            omega
          · omega
  | restart quiz2 now s hview hq2 =>
    rw [hqsel] at hq2
    cases hq2
    exact basic_start_inv quiz now

/-- Every state of a running basic session satisfies the invariant. -/
theorem basic_reachable_inv {quiz : Quiz} {s : SessionState}
    (h : Reachable quiz s) : BasicInv quiz s := by
  obtain ⟨now, hsteps⟩ := h
  induction hsteps with
  | refl => exact basic_start_inv quiz now
  | tail hsteps hstep ih => exact basic_step_inv ih hstep

end BasicQuiz

/-! ### Scoring -/

/-- C1.  In every session that reaches the results view, the computed
percentage is `round(100 × correctCount / totalQuestions)` with
`totalQuestions` the number of questions of the quiz being taken, and
`0 ≤ percentage ≤ 100` — in the extended variant (whose non-degenerate
sessions run over a non-empty quiz; its `calculateResults` guards the
division) and in the basic variant (whose results view is only reachable
after answering every question, so its recorded-answer count equals the
quiz's question count and is positive). -/
theorem results_percentage_correct :
    (∀ (sq : QuizApp.Quiz) (settings : QuizApp.QuizSettings)
        (s : QuizApp.SessionState),
      0 < sq.questions.length → QuizApp.Reachable sq settings s →
      s.currentView = QuizApp.View.results →
      (QuizApp.calculateResults s).totalQuestions = sq.questions.length ∧
      (QuizApp.calculateResults s).percentage =
        QuizApp.jsRound
          (100 * (QuizApp.calculateResults s).correctAnswers)
          sq.questions.length ∧
      0 ≤ (QuizApp.calculateResults s).percentage ∧
      (QuizApp.calculateResults s).percentage ≤ 100) ∧
    (∀ (quiz : QuizApp.Quiz) (s : BasicQuiz.SessionState),
      BasicQuiz.Reachable quiz s →
      s.currentView = BasicQuiz.View.results →
      (BasicQuiz.calculateResults s).totalQuestions =
        quiz.questions.length ∧
      (BasicQuiz.calculateResults s).percentage =
        some (QuizApp.jsRound
          (100 * (BasicQuiz.calculateResults s).correctAnswers)
          quiz.questions.length) ∧
      ∀ p, (BasicQuiz.calculateResults s).percentage = some p →
        0 ≤ p ∧ p ≤ 100) := by
  constructor
  · intro sq settings s hN hreach hview
    obtain ⟨-, -, -, hone, hbnd, pq, hpq, hlen, -⟩ :=
      QuizApp.reachable_inv hN hreach
    have hc : (QuizApp.calculateResults s).correctAnswers =
        (s.userAnswers.filter fun a => a.isCorrect == some true).length := by
      simp [QuizApp.calculateResults, hpq]
    have hcle : (QuizApp.calculateResults s).correctAnswers ≤
        sq.questions.length := by
      rw [hc]
      exact le_trans (List.length_filter_le _ _)
        (QuizApp.atMostOne_length_le s.userAnswers sq.questions.length
          hone hbnd)
    have hpos : 0 < pq.questions.length := by omega
    have htot : (QuizApp.calculateResults s).totalQuestions =
        sq.questions.length := by
      simp [QuizApp.calculateResults, hpq, hlen]
    have hperc : (QuizApp.calculateResults s).percentage =
        QuizApp.jsRound
          (100 * (QuizApp.calculateResults s).correctAnswers)
          sq.questions.length := by
      rw [hc]
      simp only [QuizApp.calculateResults, hpq]
      rw [if_pos hpos, hlen, Nat.mul_comm]
    refine ⟨htot, hperc, Nat.zero_le _, ?_⟩
    rw [hperc]
    exact QuizApp.jsRound_le_100 _ _ hcle hN
  · intro quiz s hreach hview
    obtain ⟨hqsel, -, hres⟩ := BasicQuiz.basic_reachable_inv hreach
    obtain ⟨hlenq, hpos⟩ := hres hview
    have hc : (BasicQuiz.calculateResults s).correctAnswers =
        (s.userAnswers.filter fun a => a.isCorrect).length := by
      simp [BasicQuiz.calculateResults]
    have hcle : (BasicQuiz.calculateResults s).correctAnswers ≤
        quiz.questions.length := by
      rw [hc, ← hlenq]
      exact List.length_filter_le _ _
    have htot : (BasicQuiz.calculateResults s).totalQuestions =
        quiz.questions.length := by
      simp [BasicQuiz.calculateResults, hlenq]
    have hperc : (BasicQuiz.calculateResults s).percentage =
        some (QuizApp.jsRound
          (100 * (BasicQuiz.calculateResults s).correctAnswers)
          quiz.questions.length) := by
      rw [hc]
      simp only [BasicQuiz.calculateResults]
      rw [if_neg (by omega : ¬s.userAnswers.length = 0), hlenq,
        Nat.mul_comm]
    refine ⟨htot, hperc, ?_⟩
    intro p hp
    rw [hperc] at hp
    cases hp
    exact ⟨Nat.zero_le _, QuizApp.jsRound_le_100 _ _ hcle hpos⟩




/-- Witness for C1: one concrete session of each variant that reaches
the results view. -/
theorem results_percentage_correct_witness :
    ((0 < QuizApp.fallbackQuiz.questions.length ∧
      QuizApp.Reachable QuizApp.fallbackQuiz ⟨false, false, false⟩
        extResultsSession ∧
      extResultsSession.currentView = QuizApp.View.results) ∧
     (BasicQuiz.Reachable miniQuiz basicResultsSession ∧
      basicResultsSession.currentView = BasicQuiz.View.results)) ∧
    ((QuizApp.calculateResults extResultsSession).totalQuestions =
        QuizApp.fallbackQuiz.questions.length ∧
      (QuizApp.calculateResults extResultsSession).percentage =
        QuizApp.jsRound
          (100 * (QuizApp.calculateResults extResultsSession).correctAnswers)
          QuizApp.fallbackQuiz.questions.length ∧
      0 ≤ (QuizApp.calculateResults extResultsSession).percentage ∧
      (QuizApp.calculateResults extResultsSession).percentage ≤ 100) ∧
    ((BasicQuiz.calculateResults basicResultsSession).totalQuestions =
        miniQuiz.questions.length ∧
      (BasicQuiz.calculateResults basicResultsSession).percentage =
        some (QuizApp.jsRound
          (100 *
            (BasicQuiz.calculateResults basicResultsSession).correctAnswers)
          miniQuiz.questions.length) ∧
      ∀ p, (BasicQuiz.calculateResults basicResultsSession).percentage =
          some p → 0 ≤ p ∧ p ≤ 100) := by
  have hreachE : QuizApp.Reachable QuizApp.fallbackQuiz
      ⟨false, false, false⟩ extResultsSession :=
    ⟨QuizApp.zeroRand, 5,
      Relation.ReflTransGen.single
        (QuizApp.EStep.submit 9 _ extResultsSession rfl (by decide))⟩
  have hreachB : BasicQuiz.Reachable miniQuiz basicResultsSession :=
    ⟨5, Relation.ReflTransGen.tail
      (Relation.ReflTransGen.single
        (BasicQuiz.BStep.selectAns "A" _ rfl rfl))
      (BasicQuiz.BStep.submitAns 9 _ basicResultsSession rfl (by decide))⟩
  refine ⟨⟨⟨by decide, hreachE, rfl⟩, hreachB, rfl⟩, ?_, ?_⟩
  · exact results_percentage_correct.1 QuizApp.fallbackQuiz
      ⟨false, false, false⟩ extResultsSession (by decide) hreachE rfl
  · exact results_percentage_correct.2 miniQuiz basicResultsSession
      hreachB rfl

/-- Witness for C3: option shuffling of the fallback demo quiz under a
concrete random source. -/
theorem shuffleAnswers_preserves_witness :
    ((⟨false, true, false⟩ : QuizApp.QuizSettings).shuffleAnswers = true ∧
      ∀ q ∈ QuizApp.fallbackQuiz.questions,
        q.correctAnswer ∈ q.options) ∧
    ∀ p ∈ (QuizApp.processQuizWithSettings QuizApp.zeroRand
        QuizApp.fallbackQuiz ⟨false, true, false⟩).questions,
      ∃ q ∈ QuizApp.fallbackQuiz.questions,
        p.options.Perm q.options ∧
        p.correctAnswer = q.correctAnswer ∧
        p.correctAnswer ∈ p.options := by
  refine ⟨⟨rfl, by decide⟩, ?_⟩
  exact QuizApp.shuffleAnswers_preserves_options_and_correct
    QuizApp.zeroRand QuizApp.fallbackQuiz ⟨false, true, false⟩ rfl (by decide)


/-- Witness for C5: the 2-quiz/5-question example catalog. -/
theorem masterChallenge_concatenates_witness :
    (twoThreeCatalog.quizzes.map fun z => z.questions.length) = [2, 3] ∧
    ((QuizApp.createAllQuestionsQuiz twoThreeCatalog).questions.length =
        5 ∧
      (QuizApp.createAllQuestionsQuiz twoThreeCatalog).questions.map
        QuizApp.Question.questionNumber = [1, 2, 3, 4, 5]) := by
  refine ⟨by decide, ?_⟩
  exact QuizApp.masterChallenge_concatenates_renumbered.2 twoThreeCatalog (by decide)
